import Mathlib

/-!
Shallow embedding of `services/horizon/internal/db2/history/effect.go`
(the `EffectsQ` keyset-pagination and filter-composition builder) and the
theorems checking the specification's claims about it.

Modelling conventions:
- SQL `WHERE` fragments added by the builder are embedded as a small
  condition AST (`Cond`) over the columns the file actually mentions
  (`heff.history_operation_id`, `heff.order`, `heff.history_account_id`),
  with `evalCond` giving their row-level semantics.
- Storage lookups performed through `q.parent` (`AccountByAddress`,
  `LedgerBySequence`, `TransactionByHash`, `SelectRaw`, `Select`) are
  external collaborators: each builder method takes the lookup's outcome
  (or, for `ForLiquidityPool`, the contents of the join table for the
  requested pool) as an explicit argument.
- Machine integers (`int64`, `int32`) are embedded as `Int` with explicit
  bounds where they matter; all values reachable in the source stay far
  from overflow, and the claims carry the corresponding range hypotheses.
-/

namespace StellarEffects

/-- Columns of `history_effects` referenced by the WHERE/ORDER BY fragments
built in `effect.go`: `heff.history_operation_id`, `heff.order`,
`heff.history_account_id`. -/
inductive Col where
  | opId
  | ord
  | accountId
  deriving DecidableEq

/-- Embedding of the SQL boolean fragments that `effect.go` passes to
`squirrel`'s `Where`: comparisons of a column against a bound parameter,
conjunction and disjunction, plus membership in a list of values (the
map-based `Where` used by `ForLiquidityPool`). -/
inductive Cond where
  | ge (c : Col) (v : Int)
  | gt (c : Col) (v : Int)
  | le (c : Col) (v : Int)
  | lt (c : Col) (v : Int)
  | eqc (c : Col) (v : Int)
  | and (a b : Cond)
  | or (a b : Cond)
  | inList (c : Col) (vs : List Int)
  deriving DecidableEq

/-- The fields of the `Effect` row type that `effect.go` reads:
`HistoryOperationID int64`, `Order int32`, `HistoryAccountID int64`. -/
structure Effect where
  HistoryOperationID : Int
  Order : Int
  HistoryAccountID : Int
  deriving DecidableEq

/-- Value of a column in a row. -/
def colVal (r : Effect) : Col → Int
  | .opId => r.HistoryOperationID
  | .ord => r.Order
  | .accountId => r.HistoryAccountID

/-- Row-level semantics of a `Cond`: whether the row satisfies the SQL
fragment. -/
def evalCond (r : Effect) : Cond → Bool
  | .ge c v => decide (v ≤ colVal r c)
  | .gt c v => decide (v < colVal r c)
  | .le c v => decide (colVal r c ≤ v)
  | .lt c v => decide (colVal r c < v)
  | .eqc c v => decide (colVal r c = v)
  | .and a b => evalCond r a && evalCond r b
  | .or a b => evalCond r a || evalCond r b
  | .inList c vs => vs.contains (colVal r c)

/-- One `ORDER BY` term: a column and whether it is ascending. -/
structure OrderTerm where
  col : Col
  ascending : Bool
  deriving DecidableEq

/-- Embedding of the accumulated `squirrel` select-builder state: the
conjoined WHERE conditions, the ORDER BY terms, and the LIMIT. The base
projection and the `history_accounts` join of `selectEffect` carry no
claim-relevant content and are not represented. -/
structure SqlQuery where
  conds : List Cond
  ordering : List OrderTerm
  limitN : Option Nat
  deriving DecidableEq

/-- Model of `squirrel`'s `Where`: conjoins one more condition. -/
def SqlQuery.addWhere (s : SqlQuery) (c : Cond) : SqlQuery :=
  { s with conds := s.conds ++ [c] }

/-- Model of `squirrel`'s `OrderBy`: appends ordering terms. -/
def SqlQuery.orderBy (s : SqlQuery) (ts : List OrderTerm) : SqlQuery :=
  { s with ordering := s.ordering ++ ts }

/-- Model of `squirrel`'s `Limit`. -/
def SqlQuery.withLimit (s : SqlQuery) (n : Nat) : SqlQuery :=
  { s with limitN := some n }

/-- A row satisfies the accumulated WHERE clause iff it satisfies every
conjoined condition. -/
def SqlQuery.matchesRow (s : SqlQuery) (r : Effect) : Bool :=
  s.conds.all (evalCond r)

/-- The base builder state `selectEffect` (`history_effects heff` joined
with `history_accounts`): no conditions, no ordering, no limit yet. -/
def selectEffect : SqlQuery := ⟨[], [], none⟩

/-- The `EffectsQ` builder: accumulated SQL state plus the first-error
field `Err`. -/
structure EffectsQ where
  sql : SqlQuery
  err : Option String
  deriving DecidableEq

/-- Model of `Q.Effects()`: a fresh builder over `selectEffect` with no
error latched. -/
def effects : EffectsQ := ⟨selectEffect, none⟩

/-- Result row of `AccountByAddress` (only the `ID` field is used). -/
structure Account where
  ID : Int
  deriving DecidableEq

/-- Result row of `LedgerBySequence` (no field of it is used afterwards). -/
structure Ledger where
  Sequence : Int
  deriving DecidableEq

/-- Result row of `TransactionByHash` (only the `ID` field is used). -/
structure Transaction where
  ID : Int
  deriving DecidableEq

/-! Numeric bounds of the machine-integer types involved. -/

/-- `math.MaxInt32`. -/
def maxInt32 : Int := 2 ^ 31 - 1

/-- `math.MaxInt64`. -/
def maxInt64 : Int := 2 ^ 63 - 1

/-- The clamp `Page` applies to the decoded minor cursor value:
`if idx > math.MaxInt32 { idx = math.MaxInt32 }`. -/
def clampIdx (idx : Int) : Int :=
  if maxInt32 < idx then maxInt32 else idx

/-! Decimal formatting, as performed by `fmt.Sprintf` with the `%d`,
`%019d` and `%010d` verbs. -/

/-- The ASCII character of a decimal digit. -/
def digitChar (n : Nat) : Char := Char.ofNat (48 + n)

/-- Decimal digit string (most significant first) of a natural number, as
printed by `%d`. -/
def natToDigits (n : Nat) : List Char :=
  if _h : n < 10 then [digitChar n]
  else natToDigits (n / 10) ++ [digitChar (n % 10)]
termination_by n
decreasing_by exact Nat.div_lt_self (by omega) (by omega)

/-- `%d` on a (signed) integer: a minus sign followed by the digits of the
absolute value when negative. -/
def intToDecimal (x : Int) : List Char :=
  if x < 0 then '-' :: natToDigits x.natAbs else natToDigits x.toNat

/-- Zero-padded decimal of fixed width `w` (digit `i` from the most
significant end is `n / 10 ^ (w - 1 - i) % 10`); this is `%0wd` for every
`n` with at most `w` digits, which covers all `int64`/`int32` values at
the widths 19 and 10 used in `effect.go`. -/
def padDigits : Nat → Nat → List Char
  | 0, _ => []
  | w + 1, n => digitChar (n / 10 ^ w % 10) :: padDigits w n

/-- `%0wd` on a (signed) integer: Go prints the sign first and pads the
total width to `w`. -/
def padDecimal (w : Nat) (x : Int) : List Char :=
  if x < 0 then '-' :: padDigits (w - 1) x.natAbs else padDigits w x.toNat

/-- `Effect.ID`: `fmt.Sprintf("%019d-%010d", r.HistoryOperationID,
r.Order)`. -/
def Effect.ID (r : Effect) : String :=
  String.mk (padDecimal 19 r.HistoryOperationID ++ '-' :: padDecimal 10 r.Order)

/-- `Effect.PagingToken`: `fmt.Sprintf("%d-%d", r.HistoryOperationID,
r.Order)`. -/
def Effect.PagingToken (r : Effect) : String :=
  String.mk (intToDecimal r.HistoryOperationID ++ '-' :: intToDecimal r.Order)

/-! Cursor decoding. `db2.PageQuery.CursorInt64Pair` lives outside `src/`. -/

/-- Whether a character is an ASCII decimal digit. -/
def isDigitChar (c : Char) : Bool := 48 ≤ c.toNat && c.toNat ≤ 57

/-- Left-to-right accumulation of a decimal digit string into a number;
`none` on any non-digit character. -/
def parseDigitsAux : List Char → Nat → Option Nat
  | [], acc => some acc
  | c :: cs, acc =>
    if isDigitChar c then parseDigitsAux cs (acc * 10 + (c.toNat - 48)) else none

/-- Digits-and-range part of 64-bit decimal integer parsing: rejects an
empty digit string, a non-digit character, and a value outside
`[-2^63, 2^63 - 1]`. -/
def parseInt64Core (ds : List Char) (neg : Bool) : Except String Int :=
  if ds.isEmpty then Except.error "cursor invalid"
  else
    match parseDigitsAux ds 0 with
    | none => Except.error "cursor invalid"
    | some n =>
      let v : Int := if neg then -(n : Int) else (n : Int)
      if v < -(2 ^ 63) ∨ maxInt64 < v then Except.error "cursor invalid"
      else Except.ok v

/-- Modelled from the spec: 64-bit decimal integer parsing (Go's
`strconv.ParseInt(s, 10, 64)`, reached through `CursorInt64Pair`, which is
outside `src/`): an optional sign followed by a non-empty digit string,
range-checked against `int64`. -/
def parseInt64 (cs : List Char) : Except String Int :=
  match cs with
  | [] => Except.error "cursor invalid"
  | c :: rest =>
    if c = '-' then parseInt64Core rest true
    else if c = '+' then parseInt64Core rest false
    else parseInt64Core cs false

/-- Splitting accumulator: collects the current field (reversed) and cuts
at each separator. -/
def splitOnCharAux (sep : Char) : List Char → List Char → List (List Char)
  | [], acc => [acc.reverse]
  | c :: cs, acc =>
    if c = sep then acc.reverse :: splitOnCharAux sep cs []
    else splitOnCharAux sep cs (c :: acc)

/-- Split a character list on every occurrence of `sep`. -/
def splitOnChar (sep : Char) (cs : List Char) : List (List Char) :=
  splitOnCharAux sep cs []

/-- `db2.DefaultPairSep`. -/
def DefaultPairSep : Char := '-'

/-- Modelled from the spec: the cursor decoder
`db2.PageQuery.CursorInt64Pair` (outside `src/`): `decode(token,
separator) -> (major int64, minor int64)`, failing when the token is not
exactly two integer fields joined by the separator. -/
def cursorInt64Pair (cursor : String) (sep : Char) : Except String (Int × Int) :=
  match splitOnChar sep cursor.data with
  | [l, r] =>
    match parseInt64 l, parseInt64 r with
    | Except.ok a, Except.ok b => Except.ok (a, b)
    | Except.error e, _ => Except.error e
    | _, Except.error e => Except.error e
  | _ => Except.error "cursor invalid"

/-- The paging parameters `db2.PageQuery`: `Cursor`, `Order`, `Limit`. -/
structure PageQuery where
  Cursor : String
  Order : String
  Limit : Nat
  deriving DecidableEq

/-! The composite ordering key. The `toid` package is outside `src/`. -/

/-- Modelled from the spec: the external composite-ID codec (`toid.ID`,
outside `src/`) packing `(ledger sequence, transaction order, operation
order)` into one 64-bit integer whose integer order equals chronological
order; transaction order occupies 20 bits and operation order 12 bits
above a 32-bit ledger field. -/
structure ToidID where
  LedgerSequence : Int
  TransactionOrder : Int
  OperationOrder : Int
  deriving DecidableEq

/-- Modelled from the spec: `toid.ID.ToInt64`, the packed integer key. -/
def ToidID.ToInt64 (t : ToidID) : Int :=
  t.LedgerSequence * 2 ^ 32 + t.TransactionOrder * 2 ^ 12 + t.OperationOrder

/-- Modelled from the spec: `toid.Parse`, recovering the three packed
fields from the integer key. -/
def toidParse (v : Int) : ToidID :=
  ⟨v / 2 ^ 32, v / 2 ^ 12 % 2 ^ 20, v % 2 ^ 12⟩

/-- Modelled from the spec: `toid.ID.IncOperationOrder`, the
increment-by-one on the operation-order sub-field used to compute
half-open range boundaries. -/
def ToidID.IncOperationOrder (t : ToidID) : ToidID :=
  { t with OperationOrder := t.OperationOrder + 1 }

/-! The builder methods of `EffectsQ`. -/

/-- `EffectsQ.ForAccount`: runs `AccountByAddress` (outcome passed as
`res`), assigns its error outcome to `q.Err` unconditionally, and on
success adds `heff.history_account_id = ?`. -/
def EffectsQ.ForAccount (q : EffectsQ) (res : Except String Account) : EffectsQ :=
  match res with
  | Except.error e => { q with err := some e }
  | Except.ok account =>
    { q with err := none, sql := q.sql.addWhere (.eqc .accountId account.ID) }

/-- Two's-complement wraparound of Go `int32` arithmetic: the result of
an `int32` operation reduced into `[-2^31, 2^31)`. -/
def wrapInt32 (x : Int) : Int := (x + 2 ^ 31) % 2 ^ 32 - 2 ^ 31

/-- `EffectsQ.ForLedger`: runs `LedgerBySequence` (outcome passed as
`res`), assigns its error outcome to `q.Err` unconditionally, and on
success adds `heff.history_operation_id >= key(seq,0,0) AND
heff.history_operation_id < key(seq+1,0,0)`; `seq` is an `int32`, so the
successor `seq + 1` is computed with `int32` wraparound. -/
def EffectsQ.ForLedger (q : EffectsQ) (res : Except String Ledger) (seq : Int) : EffectsQ :=
  match res with
  | Except.error e => { q with err := some e }
  | Except.ok _ =>
    let start : ToidID := ⟨seq, 0, 0⟩
    let stop : ToidID := ⟨wrapInt32 (seq + 1), 0, 0⟩
    { q with err := none,
             sql := q.sql.addWhere (.and (.ge .opId start.ToInt64) (.lt .opId stop.ToInt64)) }

/-- `EffectsQ.ForOperation`: adds `heff.history_operation_id >= id AND
heff.history_operation_id < parse(id).IncOperationOrder().ToInt64()`,
touching neither `q.Err` nor any storage. -/
def EffectsQ.ForOperation (q : EffectsQ) (id : Int) : EffectsQ :=
  let start := toidParse id
  let stop := start.IncOperationOrder
  { q with sql := q.sql.addWhere (.and (.ge .opId start.ToInt64) (.lt .opId stop.ToInt64)) }

/-- `EffectsQ.ForTransaction`: runs `TransactionByHash` (outcome passed as
`res`), assigns its error outcome to `q.Err` unconditionally, and on
success adds the range from `parse(tx.ID)` to the same key with
`TransactionOrder` incremented by one. -/
def EffectsQ.ForTransaction (q : EffectsQ) (res : Except String Transaction) : EffectsQ :=
  match res with
  | Except.error e => { q with err := some e }
  | Except.ok tx =>
    let start := toidParse tx.ID
    let stop := { start with TransactionOrder := start.TransactionOrder + 1 }
    { q with err := none,
             sql := q.sql.addWhere (.and (.ge .opId start.ToInt64) (.lt .opId stop.ToInt64)) }

/-- Result set of the subordinate `SelectRaw` of `ForLiquidityPool` in the
ascending case: the join-table operation ids of the pool with
`history_operation_id >= op`, `ORDER BY history_operation_id asc LIMIT
lim`. -/
def lpAscIds (poolOps : List Int) (op : Int) (lim : Nat) : List Int :=
  ((poolOps.filter (fun x => decide (op ≤ x))).mergeSort (fun a b => decide (a ≤ b))).take lim

/-- Result set of the subordinate `SelectRaw` of `ForLiquidityPool` in the
descending case: `history_operation_id <= op`, `ORDER BY
history_operation_id desc LIMIT lim`. -/
def lpDescIds (poolOps : List Int) (op : Int) (lim : Nat) : List Int :=
  ((poolOps.filter (fun x => decide (x ≤ op))).mergeSort (fun a b => decide (b ≤ a))).take lim

/-- `EffectsQ.ForLiquidityPool`: short-circuits on a latched error, parses
the cursor (major half only), builds the subordinate operation-id lookup
bounded by the cursor, direction and limit of `page` (the join-table rows
of the pool resolved from `id` are passed as `poolOps`), errors on an
unknown direction, and on success restricts the outer query to membership
of `heff.history_operation_id` in the resolved id set. -/
def EffectsQ.ForLiquidityPool (q : EffectsQ) (page : PageQuery) (id : String)
    (poolOps : List Int) : EffectsQ :=
  if q.err.isSome then q
  else
    match cursorInt64Pair page.Cursor DefaultPairSep with
    | Except.error e => { q with err := some e }
    | Except.ok (op, _) =>
      if page.Order = "asc" then
        { q with sql := q.sql.addWhere (.inList .opId (lpAscIds poolOps op page.Limit)) }
      else if page.Order = "desc" then
        { q with sql := q.sql.addWhere (.inList .opId (lpDescIds poolOps op page.Limit)) }
      else { q with err := some ("invalid paging order: " ++ page.Order) }

/-- The ascending keyset predicate of `Page`:
`(heff.history_operation_id >= op AND (heff.history_operation_id > op OR
(heff.history_operation_id = op AND heff.order > idx)))`. -/
def pageAscCond (op idx : Int) : Cond :=
  .and (.ge .opId op) (.or (.gt .opId op) (.and (.eqc .opId op) (.gt .ord idx)))

/-- The descending keyset predicate of `Page`:
`(heff.history_operation_id <= op AND (heff.history_operation_id < op OR
(heff.history_operation_id = op AND heff.order < idx)))`. -/
def pageDescCond (op idx : Int) : Cond :=
  .and (.le .opId op) (.or (.lt .opId op) (.and (.eqc .opId op) (.lt .ord idx)))

/-- `EffectsQ.Page`: short-circuits on a latched error, parses the cursor,
clamps the minor value to `math.MaxInt32`, adds the keyset predicate and
ordering for a recognized direction (nothing for any other direction:
the `switch` has no `default` case), and finally applies the limit. -/
def EffectsQ.Page (q : EffectsQ) (page : PageQuery) : EffectsQ :=
  if q.err.isSome then q
  else
    match cursorInt64Pair page.Cursor DefaultPairSep with
    | Except.error e => { q with err := some e }
    | Except.ok (op, idx0) =>
      let idx := clampIdx idx0
      let q1 :=
        if page.Order = "asc" then
          { q with sql := ((q.sql.addWhere (pageAscCond op idx)).orderBy [⟨Col.opId, true⟩, ⟨Col.ord, true⟩]) }
        else if page.Order = "desc" then
          { q with sql := ((q.sql.addWhere (pageDescCond op idx)).orderBy [⟨Col.opId, false⟩, ⟨Col.ord, false⟩]) }
        else q
      { q1 with sql := q1.sql.withLimit page.Limit }

/-- `EffectsQ.Select`: returns the latched error immediately when one is
present; otherwise runs the composed query (`run` stands for the storage
round trip `q.parent.Select`). -/
def EffectsQ.Select (q : EffectsQ) (run : SqlQuery → Except String Unit) :
    Except String Unit :=
  match q.err with
  | some e => Except.error e
  | none => run q.sql

/-! `UnmarshalDetails` and its trustline-sponsorship backfill. -/

/-- The two fields of the trustline-sponsorship effect payloads that
`UnmarshalDetails` touches: the asset type (`Type` in Go) and the
canonical asset string. -/
structure TrustlineSponsorship where
  assetType : String
  Asset : String
  deriving DecidableEq

/-- The destination payload kinds distinguished by the type switch in
`UnmarshalDetails`; every other destination kind is `otherDetails`. -/
inductive EffectDetails where
  | trustlineSponsorshipCreated (d : TrustlineSponsorship)
  | trustlineSponsorshipUpdated (d : TrustlineSponsorship)
  | trustlineSponsorshipRemoved (d : TrustlineSponsorship)
  | otherDetails (raw : String)
  deriving DecidableEq

/-- `getAssetTypeForCanonicalAsset`: canonical asset strings of length at
most 61 are `credit_alphanum4`, longer ones `credit_alphanum12`. -/
def getAssetTypeForCanonicalAsset (canonicalAsset : String) : String :=
  if canonicalAsset.length ≤ 61 then "credit_alphanum4" else "credit_alphanum12"

/-- The per-case backfill of `UnmarshalDetails`: fill the asset type from
the canonical asset only when it is empty. -/
def backfillTrustline (d : TrustlineSponsorship) : TrustlineSponsorship :=
  if d.assetType = "" then { d with assetType := getAssetTypeForCanonicalAsset d.Asset }
  else d

/-- `Effect.UnmarshalDetails`: does nothing when `DetailsString` is not
valid; propagates a JSON unmarshal error unchanged (the unmarshal outcome
is passed as `dec`); on success applies the trustline-sponsorship
backfill to exactly the three matched destination kinds. `none` stands
for an untouched destination. -/
def UnmarshalDetails (detailsValid : Bool) (dec : Except String EffectDetails) :
    Except String (Option EffectDetails) :=
  if !detailsValid then Except.ok none
  else
    match dec with
    | Except.error e => Except.error e
    | Except.ok dest =>
      Except.ok (some (match dest with
        | .trustlineSponsorshipCreated d => .trustlineSponsorshipCreated (backfillTrustline d)
        | .trustlineSponsorshipUpdated d => .trustlineSponsorshipUpdated (backfillTrustline d)
        | .trustlineSponsorshipRemoved d => .trustlineSponsorshipRemoved (backfillTrustline d)
        | .otherDetails s => .otherDetails s))

/-! ### Claim C1: error latching -/

/-- Claim C1 as stated is false on the code: `ForAccount` runs its account
lookup even when an error is already latched and assigns the lookup's
outcome to `Err`, so a successful lookup clears the latched error and the
call is not a no-op returning the same builder with the same first
error. -/
theorem forAccount_overwrites_latched_error_cex :
    (EffectsQ.ForAccount ⟨selectEffect, some "boom"⟩ (Except.ok ⟨7⟩)).err = none
    ∧ EffectsQ.ForAccount ⟨selectEffect, some "boom"⟩ (Except.ok ⟨7⟩)
        ≠ ⟨selectEffect, some "boom"⟩ := by
  exact ⟨rfl, by decide⟩

/-- Claim C1, amended to what the code does: once an error is latched,
`Page` and `ForLiquidityPool` are no-ops returning the same builder, and
`Select` returns the latched error without running the query; but
`ForAccount`, `ForLedger` and `ForTransaction` run their lookup
regardless and overwrite `Err` with the new outcome (clearing it on
success), and `ForOperation` adds its range predicate regardless of any
latched error, preserving `Err`. -/
theorem error_latch_behavior :
    (∀ (q : EffectsQ) (pq : PageQuery) (e : String), q.err = some e → q.Page pq = q)
    ∧ (∀ (q : EffectsQ) (pq : PageQuery) (s : String) (ops : List Int) (e : String),
        q.err = some e → q.ForLiquidityPool pq s ops = q)
    ∧ (∀ (q : EffectsQ) (e : String) (run : SqlQuery → Except String Unit),
        q.err = some e → q.Select run = Except.error e)
    ∧ (∀ (q : EffectsQ) (e : String),
        q.ForAccount (Except.error e) = { q with err := some e })
    ∧ (∀ (q : EffectsQ) (a : Account),
        q.ForAccount (Except.ok a) = ⟨q.sql.addWhere (.eqc .accountId a.ID), none⟩)
    ∧ (∀ (q : EffectsQ) (e : String) (seq : Int),
        q.ForLedger (Except.error e) seq = { q with err := some e })
    ∧ (∀ (q : EffectsQ) (lg : Ledger) (seq : Int), (q.ForLedger (Except.ok lg) seq).err = none)
    ∧ (∀ (q : EffectsQ) (e : String),
        q.ForTransaction (Except.error e) = { q with err := some e })
    ∧ (∀ (q : EffectsQ) (tx : Transaction), (q.ForTransaction (Except.ok tx)).err = none)
    ∧ (∀ (q : EffectsQ) (id : Int),
        q.ForOperation id = ⟨q.sql.addWhere (Cond.and (Cond.ge Col.opId (toidParse id).ToInt64)
          (Cond.lt Col.opId (toidParse id).IncOperationOrder.ToInt64)), q.err⟩) := by
  refine ⟨?_, ?_, ?_, ?_, ?_, ?_, ?_, ?_, ?_, ?_⟩
  · intro q pq e h
    simp [EffectsQ.Page, h]
  · intro q pq s ops e h
    simp [EffectsQ.ForLiquidityPool, h]
  · intro q e run h
    simp [EffectsQ.Select, h]
  · intro q e; rfl
  · intro q a; rfl
  · intro q e seq; rfl
  · intro q lg seq; rfl
  · intro q e; rfl
  · intro q tx; rfl
  · intro q id; rfl

/-- Witness for `error_latch_behavior` at a concrete latched builder. -/
theorem error_latch_behavior_witness :
    EffectsQ.Page ⟨selectEffect, some "boom"⟩ ⟨"1-2", "asc", 5⟩
      = ⟨selectEffect, some "boom"⟩ :=
  error_latch_behavior.1 ⟨selectEffect, some "boom"⟩ ⟨"1-2", "asc", 5⟩ "boom" rfl

/-! ### Claim C2: invalid sort direction -/

/-- Claim C2 as stated is false on the code: `Page` with the direction
`"sideways"` latches no error (its `switch` has no `default` case), and a
subsequent `Select` does execute the query. -/
theorem page_sideways_no_error_cex :
    (EffectsQ.Page ⟨selectEffect, none⟩ ⟨"1-2", "sideways", 10⟩).err = none
    ∧ EffectsQ.Select (EffectsQ.Page ⟨selectEffect, none⟩ ⟨"1-2", "sideways", 10⟩)
        (fun _ => Except.ok ()) = Except.ok () := by
  exact ⟨rfl, rfl⟩

/-- Claim C2, amended to what the code does: `ForLiquidityPool` rejects an
unrecognized direction with an invalid-paging-order error before touching
storage (the result does not depend on the join-table contents), but
`Page` with an unrecognized direction stays error-free, adds no predicate
and no ordering, applies only the limit, and a subsequent `Select` runs
the query. -/
theorem invalid_order_behavior :
    (∀ (q : EffectsQ) (pq : PageQuery) (s : String) (ops : List Int) (op idx : Int),
        q.err = none → cursorInt64Pair pq.Cursor DefaultPairSep = Except.ok (op, idx) →
        pq.Order ≠ "asc" → pq.Order ≠ "desc" →
        q.ForLiquidityPool pq s ops = { q with err := some ("invalid paging order: " ++ pq.Order) })
    ∧ (∀ (q : EffectsQ) (pq : PageQuery) (op idx : Int),
        q.err = none → cursorInt64Pair pq.Cursor DefaultPairSep = Except.ok (op, idx) →
        pq.Order ≠ "asc" → pq.Order ≠ "desc" →
        q.Page pq = { q with sql := q.sql.withLimit pq.Limit }
        ∧ ∀ (run : SqlQuery → Except String Unit),
            (q.Page pq).Select run = run (q.sql.withLimit pq.Limit)) := by
  constructor
  · intro q pq s ops op idx herr hcur h1 h2
    simp [EffectsQ.ForLiquidityPool, herr, hcur, h1, h2]
  · intro q pq op idx herr hcur h1 h2
    have hpage : q.Page pq = { q with sql := q.sql.withLimit pq.Limit } := by
      simp [EffectsQ.Page, herr, hcur, h1, h2]
    refine ⟨hpage, ?_⟩
    intro run
    rw [hpage]
    simp [EffectsQ.Select, herr]

/-- Witness for `invalid_order_behavior` at the direction `"sideways"`. -/
theorem invalid_order_behavior_witness :
    EffectsQ.ForLiquidityPool ⟨selectEffect, none⟩ ⟨"1-2", "sideways", 10⟩ "pool" [4, 9]
      = ⟨selectEffect, some "invalid paging order: sideways"⟩ :=
  invalid_order_behavior.1 ⟨selectEffect, none⟩ ⟨"1-2", "sideways", 10⟩ "pool" [4, 9] 1 2
    rfl rfl (by decide) (by decide)

/-! ### Claim C8: clamping of the minor cursor value -/

/-- Claim C8: a decoded minor cursor value above `math.MaxInt32` does not
make `Page` fail: it is clamped to exactly `2^31 - 1` before entering the
pagination predicate, while values at or below `2^31 - 1` are used
unchanged. -/
theorem page_minor_clamp :
    (∀ idx : Int, maxInt32 < idx → clampIdx idx = maxInt32)
    ∧ (∀ idx : Int, idx ≤ maxInt32 → clampIdx idx = idx)
    ∧ (∀ (q : EffectsQ) (pq : PageQuery) (op idx : Int),
        q.err = none → cursorInt64Pair pq.Cursor DefaultPairSep = Except.ok (op, idx) →
        pq.Order = "asc" →
        q.Page pq = { q with sql := ((q.sql.addWhere (pageAscCond op (clampIdx idx))).orderBy
          [⟨Col.opId, true⟩, ⟨Col.ord, true⟩]).withLimit pq.Limit })
    ∧ (∀ (q : EffectsQ) (pq : PageQuery) (op idx : Int),
        q.err = none → cursorInt64Pair pq.Cursor DefaultPairSep = Except.ok (op, idx) →
        pq.Order = "desc" →
        q.Page pq = { q with sql := ((q.sql.addWhere (pageDescCond op (clampIdx idx))).orderBy
          [⟨Col.opId, false⟩, ⟨Col.ord, false⟩]).withLimit pq.Limit }) := by
  refine ⟨?_, ?_, ?_, ?_⟩
  · intro idx h
    simp [clampIdx, h]
  · intro idx h
    simp [clampIdx, not_lt.mpr h]
  · intro q pq op idx herr hcur hord
    simp [EffectsQ.Page, herr, hcur, hord]
  · intro q pq op idx herr hcur hord
    have : pq.Order ≠ "asc" := by
      rw [hord]; decide
    simp [EffectsQ.Page, herr, hcur, hord, this]

/-- Witness for `page_minor_clamp`: the minor value `2^31` (one past the
maximum) is clamped, and a small minor value is kept. -/
theorem page_minor_clamp_witness :
    clampIdx 2147483648 = maxInt32 ∧ clampIdx 3 = 3 :=
  ⟨page_minor_clamp.1 2147483648 (by decide),
   page_minor_clamp.2.1 3 (by decide)⟩

/-! ### Claim C10: trustline-sponsorship asset-type backfill -/

/-- Claim C10: after a successful unmarshal into one of the three
trustline-sponsorship destinations with an empty asset type,
`UnmarshalDetails` backfills the type to `credit_alphanum4` when the
canonical asset string has length at most 61 and to `credit_alphanum12`
otherwise; a non-empty type, and every other destination kind, is left
unchanged. -/
theorem unmarshal_details_backfill :
    (∀ d : TrustlineSponsorship, d.assetType = "" → d.Asset.length ≤ 61 →
        backfillTrustline d = ⟨"credit_alphanum4", d.Asset⟩)
    ∧ (∀ d : TrustlineSponsorship, d.assetType = "" → 61 < d.Asset.length →
        backfillTrustline d = ⟨"credit_alphanum12", d.Asset⟩)
    ∧ (∀ d : TrustlineSponsorship, d.assetType ≠ "" → backfillTrustline d = d)
    ∧ (∀ d : TrustlineSponsorship, UnmarshalDetails true (Except.ok (.trustlineSponsorshipCreated d))
        = Except.ok (some (.trustlineSponsorshipCreated (backfillTrustline d))))
    ∧ (∀ d : TrustlineSponsorship, UnmarshalDetails true (Except.ok (.trustlineSponsorshipUpdated d))
        = Except.ok (some (.trustlineSponsorshipUpdated (backfillTrustline d))))
    ∧ (∀ d : TrustlineSponsorship, UnmarshalDetails true (Except.ok (.trustlineSponsorshipRemoved d))
        = Except.ok (some (.trustlineSponsorshipRemoved (backfillTrustline d))))
    ∧ (∀ s : String, UnmarshalDetails true (Except.ok (.otherDetails s))
        = Except.ok (some (.otherDetails s))) := by
  refine ⟨?_, ?_, ?_, ?_, ?_, ?_, ?_⟩
  · intro d h1 h2
    simp [backfillTrustline, getAssetTypeForCanonicalAsset, h1, h2]
  · intro d h1 h2
    simp [backfillTrustline, getAssetTypeForCanonicalAsset, h1, not_le.mpr h2]
  · intro d h
    simp [backfillTrustline, h]
  · intro d; rfl
  · intro d; rfl
  · intro d; rfl
  · intro s; rfl

/-- Witness for `unmarshal_details_backfill` at concrete payloads. -/
theorem unmarshal_details_backfill_witness :
    backfillTrustline ⟨"", "USD:GABC"⟩ = ⟨"credit_alphanum4", "USD:GABC"⟩
    ∧ backfillTrustline ⟨"native", "USD:GABC"⟩ = ⟨"native", "USD:GABC"⟩ :=
  ⟨unmarshal_details_backfill.1 ⟨"", "USD:GABC"⟩ rfl (by decide),
   unmarshal_details_backfill.2.2.1 ⟨"native", "USD:GABC"⟩ (by decide)⟩

/-! ### Claim C3: the keyset pagination predicate -/

/-- Claim C3: for a cursor `(op, idx)` (minor value in the representable
order range), `Page` with direction `asc` adds exactly the predicate
satisfied by the rows whose `(history_operation_id, order)` pair is
lexicographically strictly greater than the cursor, ordered by
`(history_operation_id ASC, order ASC)`; with `desc`, strictly less and
ordered descending; and both predicates keep the redundant leading
inequality as their first conjunct. -/
theorem page_keyset_predicate :
    ∀ (q : EffectsQ) (pq : PageQuery) (op idx : Int),
      q.err = none → cursorInt64Pair pq.Cursor DefaultPairSep = Except.ok (op, idx) →
      idx ≤ maxInt32 →
      ((pq.Order = "asc" →
          q.Page pq = { q with sql := ((q.sql.addWhere (pageAscCond op idx)).orderBy
            [⟨Col.opId, true⟩, ⟨Col.ord, true⟩]).withLimit pq.Limit })
       ∧ pageAscCond op idx = Cond.and (Cond.ge Col.opId op)
           (Cond.or (Cond.gt Col.opId op) (Cond.and (Cond.eqc Col.opId op) (Cond.gt Col.ord idx)))
       ∧ (∀ r : Effect, evalCond r (pageAscCond op idx) = true ↔
            (op < r.HistoryOperationID ∨ (op = r.HistoryOperationID ∧ idx < r.Order)))
       ∧ (pq.Order = "desc" →
          q.Page pq = { q with sql := ((q.sql.addWhere (pageDescCond op idx)).orderBy
            [⟨Col.opId, false⟩, ⟨Col.ord, false⟩]).withLimit pq.Limit })
       ∧ pageDescCond op idx = Cond.and (Cond.le Col.opId op)
           (Cond.or (Cond.lt Col.opId op) (Cond.and (Cond.eqc Col.opId op) (Cond.lt Col.ord idx)))
       ∧ (∀ r : Effect, evalCond r (pageDescCond op idx) = true ↔
            (r.HistoryOperationID < op ∨ (r.HistoryOperationID = op ∧ r.Order < idx)))) := by
  intro q pq op idx herr hcur hidx
  have hclamp : clampIdx idx = idx := by
    simp [clampIdx, not_lt.mpr hidx]
  refine ⟨?_, rfl, ?_, ?_, rfl, ?_⟩
  · intro hord
    simp [EffectsQ.Page, herr, hcur, hord, hclamp]
  · intro r
    simp only [pageAscCond, evalCond, colVal, Bool.and_eq_true, Bool.or_eq_true,
      decide_eq_true_eq]
    omega
  · intro hord
    have hne : pq.Order ≠ "asc" := by
      rw [hord]; decide
    simp [EffectsQ.Page, herr, hcur, hord, hne, hclamp]
  · intro r
    simp only [pageDescCond, evalCond, colVal, Bool.and_eq_true, Bool.or_eq_true,
      decide_eq_true_eq]
    omega

/-- Witness for `page_keyset_predicate` at the concrete cursor `"5-3"`. -/
theorem page_keyset_predicate_witness :
    EffectsQ.Page ⟨selectEffect, none⟩ ⟨"5-3", "asc", 7⟩
      = ⟨((selectEffect.addWhere (pageAscCond 5 3)).orderBy
          [⟨Col.opId, true⟩, ⟨Col.ord, true⟩]).withLimit 7, none⟩ :=
  (page_keyset_predicate ⟨selectEffect, none⟩ ⟨"5-3", "asc", 7⟩ 5 3 rfl rfl (by decide)).1 rfl

/-! ### Claims C6 and C7: half-open composite-key ranges -/

/-- Unpacking the composite key: packing then parsing is the identity on
in-range components. -/
theorem toid_parse_toInt64 (l t o : Int) (ht : 0 ≤ t) (ht2 : t < 2 ^ 20)
    (ho : 0 ≤ o) (ho2 : o < 2 ^ 12) (hl : 0 ≤ l) :
    toidParse (ToidID.ToInt64 ⟨l, t, o⟩) = ⟨l, t, o⟩ := by
  simp only [toidParse, ToidID.ToInt64, ToidID.mk.injEq]
  refine ⟨?_, ?_, ?_⟩ <;> omega

/-- Claim C6: for a ledger sequence `seq` whose lookup succeeds —
`seq` a nonnegative `int32` whose successor does not overflow, so that
the source's `int32` computation of `seq + 1` does not wrap —
`ForLedger` adds exactly the half-open range
`[key(seq,0,0), key(seq+1,0,0))` on the composite key, and a record with
a well-formed key satisfies it exactly when its ledger component equals
`seq` — never for ledger `seq + 1` or `seq - 1`. -/
theorem forLedger_range :
    ∀ (q : EffectsQ) (lg : Ledger) (seq : Int), 0 ≤ seq → seq + 1 ≤ maxInt32 →
      (q.ForLedger (Except.ok lg) seq
        = ⟨q.sql.addWhere (Cond.and (Cond.ge Col.opId (ToidID.ToInt64 ⟨seq, 0, 0⟩))
            (Cond.lt Col.opId (ToidID.ToInt64 ⟨seq + 1, 0, 0⟩))), none⟩)
      ∧ ∀ (r : Effect) (l t o : Int),
          r.HistoryOperationID = ToidID.ToInt64 ⟨l, t, o⟩ →
          0 ≤ t → t < 2 ^ 20 → 0 ≤ o → o < 2 ^ 12 →
          (evalCond r (Cond.and (Cond.ge Col.opId (ToidID.ToInt64 ⟨seq, 0, 0⟩))
              (Cond.lt Col.opId (ToidID.ToInt64 ⟨seq + 1, 0, 0⟩))) = true ↔ l = seq) := by
  intro q lg seq h0 h1
  have h1' : seq + 1 ≤ 2 ^ 31 - 1 := h1
  have hwrap : wrapInt32 (seq + 1) = seq + 1 := by
    rw [wrapInt32]
    omega
  refine ⟨?_, ?_⟩
  · show (⟨q.sql.addWhere (Cond.and (Cond.ge Col.opId (ToidID.ToInt64 ⟨seq, 0, 0⟩))
      (Cond.lt Col.opId (ToidID.ToInt64 ⟨wrapInt32 (seq + 1), 0, 0⟩))), none⟩ : EffectsQ) = _
    rw [hwrap]
  · intro r l t o hr ht ht2 ho ho2
    simp only [evalCond, colVal, ToidID.ToInt64, Bool.and_eq_true, decide_eq_true_eq, hr]
    omega

/-- Witness for `forLedger_range`: inside ledger 3, the key of
`(ledger 3, tx 1, op 1)` satisfies the range and the key of
`(ledger 4, tx 0, op 0)` does not. -/
theorem forLedger_range_witness :
    evalCond ⟨ToidID.ToInt64 ⟨3, 1, 1⟩, 1, 0⟩
        (Cond.and (Cond.ge Col.opId (ToidID.ToInt64 ⟨3, 0, 0⟩))
          (Cond.lt Col.opId (ToidID.ToInt64 ⟨4, 0, 0⟩))) = true
    ∧ ¬ evalCond ⟨ToidID.ToInt64 ⟨4, 0, 0⟩, 1, 0⟩
        (Cond.and (Cond.ge Col.opId (ToidID.ToInt64 ⟨3, 0, 0⟩))
          (Cond.lt Col.opId (ToidID.ToInt64 ⟨4, 0, 0⟩))) = true := by
  constructor
  · exact ((forLedger_range ⟨selectEffect, none⟩ ⟨3⟩ 3 (by decide) (by decide)).2
      ⟨ToidID.ToInt64 ⟨3, 1, 1⟩, 1, 0⟩ 3 1 1
      rfl (by decide) (by decide) (by decide) (by decide)).mpr rfl
  · intro h
    have := ((forLedger_range ⟨selectEffect, none⟩ ⟨3⟩ 3 (by decide) (by decide)).2
      ⟨ToidID.ToInt64 ⟨4, 0, 0⟩, 1, 0⟩ 4 0 0
      rfl (by decide) (by decide) (by decide) (by decide)).mp h
    exact absurd this (by decide)

/-- Claim C7: `ForOperation(id)` adds exactly the half-open range
`[id, increment(id).operationOrder)`, i.e. `[id, id + 1)` — precisely the
single operation `id`; and `ForTransaction`, for a transaction resolving
to composite id `key(l,t,0)`, adds exactly
`[key(l,t,0), key(l,t+1,0))` — all operations of that transaction. -/
theorem forOperation_forTransaction_range :
    (∀ (q : EffectsQ) (id l t o : Int),
        id = ToidID.ToInt64 ⟨l, t, o⟩ →
        0 ≤ l → 0 ≤ t → t < 2 ^ 20 → 0 ≤ o → o < 2 ^ 12 →
        q.ForOperation id
          = ⟨q.sql.addWhere (Cond.and (Cond.ge Col.opId id) (Cond.lt Col.opId (id + 1))), q.err⟩
        ∧ ∀ r : Effect,
            evalCond r (Cond.and (Cond.ge Col.opId id) (Cond.lt Col.opId (id + 1))) = true
              ↔ r.HistoryOperationID = id)
    ∧ (∀ (q : EffectsQ) (tx : Transaction) (l t : Int),
        tx.ID = ToidID.ToInt64 ⟨l, t, 0⟩ →
        0 ≤ l → 0 ≤ t → t + 1 < 2 ^ 20 →
        q.ForTransaction (Except.ok tx)
          = ⟨q.sql.addWhere (Cond.and (Cond.ge Col.opId (ToidID.ToInt64 ⟨l, t, 0⟩))
              (Cond.lt Col.opId (ToidID.ToInt64 ⟨l, t + 1, 0⟩))), none⟩
        ∧ ∀ (r : Effect) (l' t' o' : Int),
            r.HistoryOperationID = ToidID.ToInt64 ⟨l', t', o'⟩ →
            0 ≤ t' → t' < 2 ^ 20 → 0 ≤ o' → o' < 2 ^ 12 →
            (evalCond r (Cond.and (Cond.ge Col.opId (ToidID.ToInt64 ⟨l, t, 0⟩))
                (Cond.lt Col.opId (ToidID.ToInt64 ⟨l, t + 1, 0⟩))) = true ↔ (l' = l ∧ t' = t))) := by
  constructor
  · intro q id l t o hid hl ht ht2 ho ho2
    have hparse : toidParse id = ⟨l, t, o⟩ := by
      rw [hid]; exact toid_parse_toInt64 l t o ht ht2 ho ho2 hl
    constructor
    · show (⟨q.sql.addWhere (Cond.and (Cond.ge Col.opId (toidParse id).ToInt64)
        (Cond.lt Col.opId (toidParse id).IncOperationOrder.ToInt64)), q.err⟩ : EffectsQ) = _
      rw [hparse]
      have h1 : (ToidID.IncOperationOrder ⟨l, t, o⟩).ToInt64 = ToidID.ToInt64 ⟨l, t, o⟩ + 1 := by
        simp [ToidID.IncOperationOrder, ToidID.ToInt64]
        ring
      have h2 : (⟨l, t, o⟩ : ToidID).ToInt64 = id := hid.symm
      rw [h1, h2]
    · intro r
      simp only [evalCond, colVal, Bool.and_eq_true, decide_eq_true_eq]
      omega
  · intro q tx l t hid hl ht ht2
    have hparse : toidParse tx.ID = ⟨l, t, 0⟩ := by
      rw [hid]; exact toid_parse_toInt64 l t 0 ht (by omega) (by omega) (by decide) hl
    constructor
    · show (⟨q.sql.addWhere (Cond.and (Cond.ge Col.opId (toidParse tx.ID).ToInt64)
        (Cond.lt Col.opId (ToidID.ToInt64 ⟨(toidParse tx.ID).LedgerSequence,
          (toidParse tx.ID).TransactionOrder + 1, (toidParse tx.ID).OperationOrder⟩))), none⟩ :
        EffectsQ) = _
      rw [hparse]
    · intro r l' t' o' hr ht' ht2' ho' ho2'
      simp only [evalCond, colVal, ToidID.ToInt64, Bool.and_eq_true, decide_eq_true_eq, hr]
      omega

/-- Witness for `forOperation_forTransaction_range`: the key of
`(ledger 3, tx 2, op 1)` is the only key in its own operation range. -/
theorem forOperation_forTransaction_range_witness :
    evalCond ⟨ToidID.ToInt64 ⟨3, 2, 1⟩, 1, 0⟩
        (Cond.and (Cond.ge Col.opId (ToidID.ToInt64 ⟨3, 2, 1⟩))
          (Cond.lt Col.opId (ToidID.ToInt64 ⟨3, 2, 1⟩ + 1))) = true :=
  ((forOperation_forTransaction_range.1 ⟨selectEffect, none⟩ (ToidID.ToInt64 ⟨3, 2, 1⟩) 3 2 1
      rfl (by decide) (by decide) (by decide) (by decide) (by decide)).2
    ⟨ToidID.ToInt64 ⟨3, 2, 1⟩, 1, 0⟩).mpr rfl

/-! ### Claim C9: the liquidity-pool subordinate lookup -/

/-- Claim C9: `ForLiquidityPool` performs its subordinate operation-id
lookup bounded by the same cursor major key, the same direction and the
same limit as the outer query — ascending keeps ids `>= op`, descending
ids `<= op`, each capped at `Limit` many — and restricts the outer query
to membership of `heff.history_operation_id` in the resolved id set. -/
theorem forLiquidityPool_subquery :
    ∀ (q : EffectsQ) (pq : PageQuery) (s : String) (poolOps : List Int) (op idx : Int),
      q.err = none → cursorInt64Pair pq.Cursor DefaultPairSep = Except.ok (op, idx) →
      ((pq.Order = "asc" →
          q.ForLiquidityPool pq s poolOps
            = ⟨q.sql.addWhere (Cond.inList Col.opId (lpAscIds poolOps op pq.Limit)), none⟩)
       ∧ (∀ x ∈ lpAscIds poolOps op pq.Limit, op ≤ x ∧ x ∈ poolOps)
       ∧ (lpAscIds poolOps op pq.Limit).length ≤ pq.Limit
       ∧ (∀ r : Effect,
            evalCond r (Cond.inList Col.opId (lpAscIds poolOps op pq.Limit)) = true
              ↔ r.HistoryOperationID ∈ lpAscIds poolOps op pq.Limit)
       ∧ (pq.Order = "desc" →
          q.ForLiquidityPool pq s poolOps
            = ⟨q.sql.addWhere (Cond.inList Col.opId (lpDescIds poolOps op pq.Limit)), none⟩)
       ∧ (∀ x ∈ lpDescIds poolOps op pq.Limit, x ≤ op ∧ x ∈ poolOps)
       ∧ (lpDescIds poolOps op pq.Limit).length ≤ pq.Limit) := by
  intro q pq s poolOps op idx herr hcur
  refine ⟨?_, ?_, ?_, ?_, ?_, ?_, ?_⟩
  · intro hord
    simp [EffectsQ.ForLiquidityPool, herr, hcur, hord]
  · intro x hx
    have h1 : x ∈ (poolOps.filter (fun y => decide (op ≤ y))).mergeSort (fun a b => decide (a ≤ b)) :=
      List.take_subset _ _ hx
    rw [List.mem_mergeSort] at h1
    have h2 := List.mem_filter.mp h1
    exact ⟨of_decide_eq_true h2.2, h2.1⟩
  · rw [lpAscIds, List.length_take]
    exact min_le_left _ _
  · intro r
    simp [evalCond, colVal]
  · intro hord
    have hne : pq.Order ≠ "asc" := by
      rw [hord]; decide
    simp [EffectsQ.ForLiquidityPool, herr, hcur, hord, hne]
  · intro x hx
    have h1 : x ∈ (poolOps.filter (fun y => decide (y ≤ op))).mergeSort (fun a b => decide (b ≤ a)) :=
      List.take_subset _ _ hx
    rw [List.mem_mergeSort] at h1
    have h2 := List.mem_filter.mp h1
    exact ⟨of_decide_eq_true h2.2, h2.1⟩
  · rw [lpDescIds, List.length_take]
    exact min_le_left _ _

/-- Witness for `forLiquidityPool_subquery` at a concrete page and join
table. -/
theorem forLiquidityPool_subquery_witness :
    EffectsQ.ForLiquidityPool ⟨selectEffect, none⟩ ⟨"5-3", "asc", 2⟩ "pool" [9]
      = ⟨selectEffect.addWhere (Cond.inList Col.opId (lpAscIds [9] 5 2)), none⟩ :=
  (forLiquidityPool_subquery ⟨selectEffect, none⟩ ⟨"5-3", "asc", 2⟩ "pool" [9] 5 3
    rfl rfl).1 rfl

/-! ### Claim C4: paging-token round trip -/

/-- Every decimal digit of a value below ten prints as a digit
character. -/
theorem digitChar_isDigit : ∀ d < 10, isDigitChar (digitChar d) = true := by decide

/-- Code point of a printed decimal digit. -/
theorem digitChar_toNat : ∀ d < 10, (digitChar d).toNat = 48 + d := by decide

/-- A digit character is neither the minus sign nor the plus sign. -/
theorem isDigitChar_ne_sign (c : Char) (h : isDigitChar c = true) :
    c ≠ '-' ∧ c ≠ '+' := by
  constructor <;> rintro rfl <;> simp [isDigitChar] at h

/-- Every character of `natToDigits n` is a digit character. -/
theorem natToDigits_digits (n : Nat) : ∀ c ∈ natToDigits n, isDigitChar c = true := by
  induction n using natToDigits.induct with
  | case1 x hx =>
    intro c hc
    rw [natToDigits] at hc
    simp only [dif_pos hx, List.mem_singleton] at hc
    subst hc
    exact digitChar_isDigit x hx
  | case2 x hx ih =>
    intro c hc
    rw [natToDigits] at hc
    simp only [dif_neg hx, List.mem_append, List.mem_singleton] at hc
    rcases hc with hc | hc
    · exact ih c hc
    · subst hc
      exact digitChar_isDigit (x % 10) (Nat.mod_lt x (by omega))

/-- `natToDigits` never returns the empty list. -/
theorem natToDigits_ne_nil (n : Nat) : natToDigits n ≠ [] := by
  rw [natToDigits]
  split
  · simp
  · simp

/-- Digit accumulation distributes over append. -/
theorem parseDigitsAux_append (xs ys : List Char) (acc : Nat) :
    parseDigitsAux (xs ++ ys) acc
      = (parseDigitsAux xs acc).bind (fun m => parseDigitsAux ys m) := by
  induction xs generalizing acc with
  | nil => rfl
  | cons c cs ih =>
    simp only [List.cons_append, parseDigitsAux]
    by_cases h : isDigitChar c
    · simp only [if_pos h]
      exact ih _
    · simp [if_neg h]

/-- Parsing the digit string of `n` starting from accumulator `acc` yields
`acc` shifted past the digits, plus `n`. -/
theorem parseDigitsAux_natToDigits (n : Nat) :
    ∀ acc : Nat, parseDigitsAux (natToDigits n) acc
      = some (acc * 10 ^ (natToDigits n).length + n) := by
  induction n using natToDigits.induct with
  | case1 x hx =>
    intro acc
    rw [natToDigits]
    simp only [dif_pos hx, parseDigitsAux, if_pos (digitChar_isDigit x hx),
      List.length_singleton, pow_one]
    rw [digitChar_toNat x hx]
    congr 1
    omega
  | case2 x hx ih =>
    intro acc
    rw [natToDigits]
    simp only [dif_neg hx, parseDigitsAux_append]
    rw [ih acc]
    simp only [Option.bind_some, parseDigitsAux,
      if_pos (digitChar_isDigit (x % 10) (Nat.mod_lt x (by omega))),
      List.length_append, List.length_singleton]
    rw [digitChar_toNat (x % 10) (Nat.mod_lt x (by omega))]
    set L := (natToDigits (x / 10)).length with hL
    set q := x / 10 with hq
    set s := x % 10 with hs
    have hx10 : x = 10 * q + s := by omega
    have h48 : 48 + s - 48 = s := by omega
    rw [hx10, h48, pow_succ, Option.some_bind]
    congr 1
    ring

/-- Splitting a list that contains no separator yields that one field. -/
theorem splitOnCharAux_no_sep (sep : Char) (b : List Char) :
    ∀ acc, (∀ c ∈ b, c ≠ sep) → splitOnCharAux sep b acc = [acc.reverse ++ b] := by
  induction b with
  | nil =>
    intro acc _
    simp [splitOnCharAux]
  | cons c cs ih =>
    intro acc hb
    have hc : c ≠ sep := hb c (by simp)
    simp only [splitOnCharAux, if_neg hc]
    rw [ih (c :: acc) (fun x hx => hb x (by simp [hx]))]
    simp

/-- Splitting `a ++ sep :: b` where neither side contains the separator
yields exactly the two fields. -/
theorem splitOnChar_two_fields (sep : Char) (a b : List Char)
    (ha : ∀ c ∈ a, c ≠ sep) (hb : ∀ c ∈ b, c ≠ sep) :
    splitOnChar sep (a ++ sep :: b) = [a, b] := by
  suffices h : ∀ acc, splitOnCharAux sep (a ++ sep :: b) acc = (acc.reverse ++ a) :: [b] by
    have := h []
    simpa [splitOnChar] using this
  induction a with
  | nil =>
    intro acc
    simp only [List.nil_append, splitOnCharAux, if_pos rfl]
    rw [splitOnCharAux_no_sep sep b [] hb]
    simp
  | cons c cs ih =>
    intro acc
    have hc : c ≠ sep := ha c (by simp)
    simp only [List.cons_append, splitOnCharAux, if_neg hc, List.append_eq]
    rw [ih (fun x hx => ha x (by simp [hx])) (c :: acc)]
    simp

/-- Parsing the printed digits of an in-range natural number succeeds with
that number. -/
theorem parseInt64_natToDigits (n : Nat) (h : (n : Int) ≤ maxInt64) :
    parseInt64 (natToDigits n) = Except.ok (n : Int) := by
  obtain ⟨c, cs, hcons⟩ : ∃ c cs, natToDigits n = c :: cs := by
    cases hd : natToDigits n with
    | nil => exact absurd hd (natToDigits_ne_nil n)
    | cons c cs => exact ⟨c, cs, rfl⟩
  have hdig : isDigitChar c = true := natToDigits_digits n c (by rw [hcons]; simp)
  have hsign := isDigitChar_ne_sign c hdig
  rw [hcons, parseInt64, if_neg hsign.1, if_neg hsign.2, ← hcons]
  rw [parseInt64Core]
  have hne : (natToDigits n).isEmpty = false := by
    rw [hcons]; rfl
  rw [hne]
  simp only [Bool.false_eq_true, if_false]
  rw [parseDigitsAux_natToDigits n 0]
  simp only [Nat.zero_mul, Nat.zero_add]
  have hrange : ¬ ((n : Int) < -(2 ^ 63) ∨ maxInt64 < (n : Int)) := by
    push_neg
    constructor
    · have : (0 : Int) ≤ (n : Int) := Int.natCast_nonneg n
      omega
    · exact h
  rw [if_neg hrange]

/-- Claim C4: for every valid effect record — nonnegative `int64`
operation id and `Order` within the representable range of the `order`
column — decoding the paging token printed by `PagingToken` (two decimal
fields joined by `-`) yields exactly the original pair. -/
theorem paging_token_round_trip :
    ∀ r : Effect, 0 ≤ r.HistoryOperationID → r.HistoryOperationID ≤ maxInt64 →
      0 ≤ r.Order → r.Order ≤ maxInt32 →
      cursorInt64Pair r.PagingToken DefaultPairSep
        = Except.ok (r.HistoryOperationID, r.Order) := by
  intro r h1 h2 h3 h4
  have hop : intToDecimal r.HistoryOperationID = natToDigits r.HistoryOperationID.toNat := by
    rw [intToDecimal, if_neg (not_lt.mpr h1)]
  have hord : intToDecimal r.Order = natToDigits r.Order.toNat := by
    rw [intToDecimal, if_neg (not_lt.mpr h3)]
  have hdata : r.PagingToken.data
      = natToDigits r.HistoryOperationID.toNat ++ '-' :: natToDigits r.Order.toNat := by
    rw [Effect.PagingToken, hop, hord]
  have hnosep1 : ∀ c ∈ natToDigits r.HistoryOperationID.toNat, c ≠ '-' := fun c hc =>
    (isDigitChar_ne_sign c (natToDigits_digits _ c hc)).1
  have hnosep2 : ∀ c ∈ natToDigits r.Order.toNat, c ≠ '-' := fun c hc =>
    (isDigitChar_ne_sign c (natToDigits_digits _ c hc)).1
  rw [cursorInt64Pair, hdata]
  rw [show DefaultPairSep = '-' from rfl]
  rw [splitOnChar_two_fields '-' _ _ hnosep1 hnosep2]
  have hcast1 : (r.HistoryOperationID.toNat : Int) = r.HistoryOperationID :=
    Int.toNat_of_nonneg h1
  have hcast2 : (r.Order.toNat : Int) = r.Order := Int.toNat_of_nonneg h3
  have hp1 : parseInt64 (natToDigits r.HistoryOperationID.toNat)
      = Except.ok ((r.HistoryOperationID.toNat : Int)) :=
    parseInt64_natToDigits r.HistoryOperationID.toNat (by rw [hcast1]; exact h2)
  have hp2 : parseInt64 (natToDigits r.Order.toNat) = Except.ok ((r.Order.toNat : Int)) :=
    parseInt64_natToDigits r.Order.toNat (by
      rw [hcast2]
      have : maxInt32 ≤ maxInt64 := by decide
      omega)
  simp only [hp1, hp2, hcast1, hcast2]

/-- Witness for `paging_token_round_trip` at the record `(42, 1)`. -/
theorem paging_token_round_trip_witness :
    cursorInt64Pair (Effect.PagingToken ⟨42, 1, 0⟩) DefaultPairSep = Except.ok (42, 1) :=
  paging_token_round_trip ⟨42, 1, 0⟩ (by decide) (by decide) (by decide) (by decide)

/-! ### Claim C5: lexical identifier ordering -/

/-- Digit characters compare exactly like the digits they print. -/
theorem digitChar_lt_iff : ∀ a < 10, ∀ b < 10, (digitChar a < digitChar b ↔ a < b) := by decide

/-- Digit characters are equal exactly when the digits are. -/
theorem digitChar_inj_iff : ∀ a < 10, ∀ b < 10, (digitChar a = digitChar b ↔ a = b) := by decide

/-- Head-by-head characterization of character-list lexicographic
order. -/
theorem char_lex_cons_iff {a b : Char} {as bs : List Char} :
    List.Lex (· < ·) (a :: as) (b :: bs) ↔ a < b ∨ (a = b ∧ List.Lex (· < ·) as bs) := by
  constructor
  · intro h
    cases h with
    | rel h => exact Or.inl h
    | cons h => exact Or.inr ⟨rfl, h⟩
  · rintro (h | ⟨rfl, h⟩)
    · exact List.Lex.rel h
    · exact List.Lex.cons h

/-- A padded decimal always has exactly the requested width. -/
theorem padDigits_length (w : Nat) : ∀ n, (padDigits w n).length = w := by
  induction w with
  | zero => intro n; rfl
  | succ w ih => intro n; simp [padDigits, ih]

/-- Base-`t` positional comparison: with both low parts below `t`, the
combined values compare high-digit-first. -/
theorem base_compare (t a b c d : Nat) (hb : b < t) (hd : d < t) :
    (b + t * a < d + t * c ↔ a < c ∨ (a = c ∧ b < d))
    ∧ (b + t * a = d + t * c ↔ a = c ∧ b = d) := by
  have key : ∀ a' c' b' d' : Nat, b' < t → d' < t → a' < c' → b' + t * a' < d' + t * c' := by
    intro a' c' b' d' hb' hd' hac
    calc b' + t * a' < t + t * a' := by omega
    _ = t * (a' + 1) := by ring
    _ ≤ t * c' := Nat.mul_le_mul (le_refl t) (by omega)
    _ ≤ d' + t * c' := by omega
  constructor
  · constructor
    · intro h
      rcases Nat.lt_trichotomy a c with hac | hac | hac
      · exact Or.inl hac
      · subst hac
        exact Or.inr ⟨rfl, by omega⟩
      · exact absurd h (by have := key c a d b hd hb hac; omega)
    · rintro (hac | ⟨rfl, hbd⟩)
      · exact key a c b d hb hd hac
      · omega
  · constructor
    · intro h
      rcases Nat.lt_trichotomy a c with hac | hac | hac
      · exact absurd h (by have := key a c b d hb hd hac; omega)
      · subst hac
        exact ⟨rfl, by omega⟩
      · exact absurd h (by have := key c a d b hd hb hac; omega)
    · rintro ⟨rfl, rfl⟩
      rfl

/-- Peeling the most significant digit off a residue. -/
theorem mod_pow_succ_eq (m w : Nat) :
    m % 10 ^ (w + 1) = m % 10 ^ w + 10 ^ w * (m / 10 ^ w % 10) := by
  rw [pow_succ]
  exact Nat.mod_mul

/-- Width-`w` zero-padded decimals order (and equate) exactly like the
numbers modulo `10 ^ w`. -/
theorem padDigits_lex_eq (w : Nat) : ∀ m n : Nat,
    (List.Lex (· < ·) (padDigits w m) (padDigits w n) ↔ m % 10 ^ w < n % 10 ^ w)
    ∧ (padDigits w m = padDigits w n ↔ m % 10 ^ w = n % 10 ^ w) := by
  induction w with
  | zero =>
    intro m n
    constructor
    · constructor
      · intro h
        cases h
      · intro h
        simp [Nat.mod_one] at h
    · simp [padDigits, Nat.mod_one]
  | succ w ih =>
    intro m n
    have hdm : m / 10 ^ w % 10 < 10 := Nat.mod_lt _ (by omega)
    have hdn : n / 10 ^ w % 10 < 10 := Nat.mod_lt _ (by omega)
    have hlo_m : m % 10 ^ w < 10 ^ w := Nat.mod_lt _ (by positivity)
    have hlo_n : n % 10 ^ w < 10 ^ w := Nat.mod_lt _ (by positivity)
    have bc := base_compare (10 ^ w) (m / 10 ^ w % 10) (m % 10 ^ w)
      (n / 10 ^ w % 10) (n % 10 ^ w) hlo_m hlo_n
    constructor
    · show List.Lex (· < ·)
        (digitChar (m / 10 ^ w % 10) :: padDigits w m)
        (digitChar (n / 10 ^ w % 10) :: padDigits w n) ↔ _
      rw [char_lex_cons_iff, digitChar_lt_iff _ hdm _ hdn, digitChar_inj_iff _ hdm _ hdn,
        (ih m n).1, mod_pow_succ_eq m w, mod_pow_succ_eq n w]
      exact bc.1.symm
    · show (digitChar (m / 10 ^ w % 10) :: padDigits w m)
        = (digitChar (n / 10 ^ w % 10) :: padDigits w n) ↔ _
      rw [List.cons.injEq, digitChar_inj_iff _ hdm _ hdn, (ih m n).2,
        mod_pow_succ_eq m w, mod_pow_succ_eq n w]
      exact bc.2.symm

/-- Lexicographic order across an equal-length prefix: compare the
prefixes first, then the suffixes. -/
theorem char_lex_append_iff : ∀ (xs ys as bs : List Char), xs.length = ys.length →
    (List.Lex (· < ·) (xs ++ as) (ys ++ bs)
      ↔ List.Lex (· < ·) xs ys ∨ (xs = ys ∧ List.Lex (· < ·) as bs)) := by
  intro xs
  induction xs with
  | nil =>
    intro ys as bs hlen
    cases ys with
    | nil =>
      simp only [List.nil_append]
      constructor
      · intro h
        exact Or.inr ⟨by trivial, h⟩
      · rintro (h | ⟨_, h⟩)
        · cases h
        · exact h
    | cons y ys => exact absurd hlen (by simp)
  | cons x xs ih =>
    intro ys as bs hlen
    cases ys with
    | nil => exact absurd hlen (by simp)
    | cons y ys =>
      have hlen' : xs.length = ys.length := by simpa using hlen
      simp only [List.cons_append, char_lex_cons_iff, ih ys as bs hlen', List.cons.injEq]
      tauto

/-- Claim C5: for effect records in the `int64`/`int32` value ranges, the
zero-padded identifier of `ID()` string-compares exactly like the numeric
pair `(HistoryOperationID, Order)`; in particular the records `(42, 1)`
and `(42, 2)` get the spec's example identifiers in that string order. -/
theorem lexical_id_order :
    (∀ a b : Effect,
       0 ≤ a.HistoryOperationID → a.HistoryOperationID ≤ maxInt64 →
       0 ≤ a.Order → a.Order ≤ maxInt32 →
       0 ≤ b.HistoryOperationID → b.HistoryOperationID ≤ maxInt64 →
       0 ≤ b.Order → b.Order ≤ maxInt32 →
       (a.ID < b.ID ↔
         (a.HistoryOperationID < b.HistoryOperationID
          ∨ (a.HistoryOperationID = b.HistoryOperationID ∧ a.Order < b.Order))))
    ∧ Effect.ID ⟨42, 1, 0⟩ = "0000000000000000042-0000000001"
    ∧ Effect.ID ⟨42, 2, 0⟩ = "0000000000000000042-0000000002"
    ∧ Effect.ID ⟨42, 1, 0⟩ < Effect.ID ⟨42, 2, 0⟩ := by
  have hID : ∀ r : Effect, 0 ≤ r.HistoryOperationID → 0 ≤ r.Order →
      (Effect.ID r).toList
        = padDigits 19 r.HistoryOperationID.toNat ++ '-' :: padDigits 10 r.Order.toNat := by
    intro r h1 h3
    show padDecimal 19 r.HistoryOperationID ++ '-' :: padDecimal 10 r.Order = _
    rw [padDecimal, padDecimal, if_neg (not_lt.mpr h1), if_neg (not_lt.mpr h3)]
  have hlt : ∀ u v : List Char, u < v ↔ List.Lex (· < ·) u v := fun u v => Iff.rfl
  refine ⟨?_, ?_, ?_, ?_⟩
  · intro a b ha1 ha2 ha3 ha4 hb1 hb2 hb3 hb4
    rw [String.lt_iff_toList_lt, hID a ha1 ha3, hID b hb1 hb3, hlt,
      char_lex_append_iff _ _ _ _ (by rw [padDigits_length, padDigits_length]),
      char_lex_cons_iff]
    simp only [lt_self_iff_false, false_or, true_and]
    rw [(padDigits_lex_eq 19 _ _).1, (padDigits_lex_eq 19 _ _).2, (padDigits_lex_eq 10 _ _).1]
    have ha2' : a.HistoryOperationID ≤ 2 ^ 63 - 1 := ha2
    have hb2' : b.HistoryOperationID ≤ 2 ^ 63 - 1 := hb2
    have ha4' : a.Order ≤ 2 ^ 31 - 1 := ha4
    have hb4' : b.Order ≤ 2 ^ 31 - 1 := hb4
    have hma : a.HistoryOperationID.toNat % 10 ^ 19 = a.HistoryOperationID.toNat :=
      Nat.mod_eq_of_lt (by omega)
    have hmb : b.HistoryOperationID.toNat % 10 ^ 19 = b.HistoryOperationID.toNat :=
      Nat.mod_eq_of_lt (by omega)
    have hra : a.Order.toNat % 10 ^ 10 = a.Order.toNat := Nat.mod_eq_of_lt (by omega)
    have hrb : b.Order.toNat % 10 ^ 10 = b.Order.toNat := Nat.mod_eq_of_lt (by omega)
    rw [hma, hmb, hra, hrb]
    omega
  · decide
  · decide
  · rw [String.lt_iff_toList_lt]
    decide

/-- Witness for `lexical_id_order` at the records `(5, 1)` and `(5, 2)`:
the identifier of the first string-compares below the second. -/
theorem lexical_id_order_witness :
    Effect.ID ⟨5, 1, 0⟩ < Effect.ID ⟨5, 2, 0⟩ ↔
      ((5 : Int) < 5 ∨ ((5 : Int) = 5 ∧ (1 : Int) < 2)) :=
  lexical_id_order.1 ⟨5, 1, 0⟩ ⟨5, 2, 0⟩ (by decide) (by decide) (by decide) (by decide)
    (by decide) (by decide) (by decide) (by decide)

end StellarEffects
